import Mathlib

/-!
Verification development for the JSON flat-column read path
(`be/src/storage/rowset/json_column_iterator.cpp`).

The file shallowly embeds the two readers of that translation unit:

* `JsonFlatColumnIterator` — the precomputed-flat reader, which drives one
  optional null sub-iterator plus N typed flat-field sub-iterators in
  lock-step and casts each stored (source) type to the query (target) type
  when they differ;
* `JsonDynamicFlatIterator` — the runtime-flat reader, which reads the raw
  document column through a single sub-iterator and flattens each batch on
  the fly.

External collaborators (underlying column iterators, the cast-expression
evaluator, the JSON flattening engine, and the column containers declared in
headers outside this translation unit) are modelled as explicit data:
a sub-iterator is a backing list of cells plus a cursor, columns are lists,
machine status codes become `Except Err`.  Fatal conditions (`CHECK`,
checked down-casts, null-pointer column writes) are modelled as the
`Err.internalFault` outcome.
-/

namespace StarRocks

/-- A nullable scalar cell held by a flat-field column: `none` is SQL NULL. -/
abbrev Cell := Option Int

/-- An opaque raw JSON document payload (the runtime reader never inspects it). -/
abbrev Doc := Int

/-- Error taxonomy of the read path, mirroring the `Status` values the
source returns: sub-iterator initialization failure, sub-iterator read
failure, cast-evaluator failure, and fatal internal-consistency faults
(`CHECK` / checked down-cast / null-pointer column). -/
inductive Err where
  | initError
  | readError
  | castError
  | internalFault
deriving DecidableEq, Repr

/-- Returns `true` exactly when a status-carrying result succeeded. -/
def isOk {α : Type} : Except Err α → Bool
  | .ok _ => true
  | .error _ => false

/-- Logical column types; only equality of types matters to this
translation unit (`target_type == source_type` decides whether a cast plan
is built). -/
inductive LogicalType where
  | intT
  | bigintT
  | varcharT
  | doubleT
  | jsonT
deriving DecidableEq, Repr

/-- An opaque column predicate handed to zone-map pruning (never inspected
by this translation unit). -/
abbrev Pred := Nat

/-- `CompoundNodeType` of the predicate relation argument. -/
inductive CompoundNodeType where
  | andNode
  | orNode
deriving DecidableEq, Repr

/-- A `SparseRange`: ordered `[begin, end)` intervals of row ids. -/
abbrev SRange := List (Nat × Nat)

/-- The row ids covered by a sparse range, in order. -/
def sRangeRows (r : SRange) : List Nat :=
  r.foldr (fun p acc => List.range' p.1 (p.2 - p.1) ++ acc) []

/-- Number of rows a sparse range selects. -/
def sRangeSize (r : SRange) : Nat := (sRangeRows r).length

/-- The three read shapes shared by every batch-read entry point:
sequential next-N, sparse-range, and fetch-by-rowid. -/
inductive ReadMode where
  | nextN
  | srange (r : SRange)
  | rowids (rs : List Nat)
deriving Repr

/-- The value the in/out read count holds after a read request against a
sub-iterator with `R` remaining rows: next-N writes back the count actually
read, the other modes leave it untouched. -/
def modeNOut (m : ReadMode) (n R : Nat) : Nat :=
  match m with
  | .nextN => min n R
  | _ => n

/-- The number of rows a read request delivers from a sub-iterator with
`R` remaining rows. -/
def modeCount (m : ReadMode) (n R : Nat) : Nat :=
  match m with
  | .nextN => min n R
  | .srange r => sRangeSize r
  | .rowids rs => rs.length

/-! ## Sub-iterators

An underlying column iterator (external collaborator): a backing column of
values with a cursor, plus failure switches that model the failure surface
the contract allows (`init`, `seek`, reads). -/

structure SubIter (α : Type) where
  data : List α
  pos : Nat := 0
  /-- Delete-state value this iterator stamps on a column it fills. -/
  emitDel : Nat := 0
  failInit : Bool := false
  failSeek : Bool := false
  failRead : Bool := false
  inited : Bool := false
deriving Repr, DecidableEq

namespace SubIter

variable {α : Type}

/-- Rows left between the cursor and the end of the backing column. -/
def remaining (it : SubIter α) : Nat := it.data.length - it.pos

/-- `ColumnIterator::init`: fails with an initialization error when the
iterator's setup fails. -/
def initIter (it : SubIter α) : Except Err (SubIter α) :=
  if it.failInit then .error .initError else .ok { it with inited := true }

/-- `seek_to_first`. -/
def seek_to_first (it : SubIter α) : Except Err (SubIter α) :=
  if it.failSeek then .error .readError else .ok { it with pos := 0 }

/-- `seek_to_ordinal(ord)`. -/
def seek_to_ordinal (it : SubIter α) (ord : Nat) : Except Err (SubIter α) :=
  if it.failSeek then .error .readError else .ok { it with pos := ord }

/-- `get_current_ordinal`. -/
def get_current_ordinal (it : SubIter α) : Nat := it.pos

/-- `num_rows`. -/
def num_rows (it : SubIter α) : Nat := it.data.length

/-- The values a read request produces: next-N takes the next `n` cells at
the cursor, a sparse range / rowid list gathers the cells at the selected
row ids. -/
def readVals (it : SubIter α) (dflt : α) (m : ReadMode) (n : Nat) : List α :=
  match m with
  | .nextN => (it.data.drop it.pos).take n
  | .srange r => (sRangeRows r).map fun i => it.data.getD i dflt
  | .rowids rs => rs.map fun i => it.data.getD i dflt

/-- Cursor movement a read request causes. -/
def readAdvance (it : SubIter α) (m : ReadMode) (n : Nat) : SubIter α :=
  match m with
  | .nextN => { it with pos := it.pos + min n it.remaining }
  | .srange r => { it with pos := r.foldl (fun a p => max a p.2) it.pos }
  | .rowids _ => it

/-- One read request against the sub-iterator.  The third component is the
value written back through the in/out `n` pointer: next-N writes back the
count actually read, the other modes leave it untouched. -/
def read (it : SubIter α) (dflt : α) (m : ReadMode) (n : Nat) :
    Except Err (SubIter α × List α × Nat) :=
  if it.failRead then .error .readError
  else .ok (it.readAdvance m n, it.readVals dflt m n, modeNOut m n it.remaining)

end SubIter

/-! ## Columns -/

/-- A flat-field column: its cells plus the delete/visibility state columns
carry (`delete_state`). -/
structure FieldCol where
  vals : List Cell
  deleteState : Nat := 0
deriving Repr, DecidableEq

/-- `Column::clone_empty`: a column of the same type with no rows. -/
def FieldCol.cloneEmpty (_f : FieldCol) : FieldCol := { vals := [] }

/-- The document sub-column (`JsonColumn`) holding the named, typed flat
fields side by side. -/
structure JsonColumn where
  flatPaths : List String := []
  targetTypes : List LogicalType := []
  fields : List FieldCol := []
deriving Repr, DecidableEq

/-- Modelled from the spec: the document sub-column's total row count; the
flat fields are kept in lock-step, so the first field is representative
(`JsonColumn::size` reads the first flat column when flattened; the
`JsonColumn` class itself lives outside this translation unit). -/
def JsonColumn.size (j : JsonColumn) : Nat :=
  (j.fields.headD { vals := [] }).vals.length

/-- Modelled from the spec: `JsonColumn::init_flat_columns` (declared
outside this translation unit) installs the fixed `(path, target type)`
descriptors and makes sure one flat-field column per descriptor exists;
already-initialized storage of the right shape is kept. -/
def JsonColumn.init_flat_columns (j : JsonColumn) (paths : List String)
    (types : List LogicalType) : JsonColumn :=
  if j.fields.length = paths.length then
    { j with flatPaths := paths, targetTypes := types }
  else
    { flatPaths := paths, targetTypes := types,
      fields := List.replicate paths.length { vals := [] } }

/-- A batch-read destination: either a bare document column or a
null-wrapped (`NullableColumn`) one with its null sub-column and cached
has-null flag. -/
inductive DstCol where
  | plain (json : JsonColumn) (deleteState : Nat)
  | nullable (nulls : List Bool) (hasNull : Bool) (json : JsonColumn) (deleteState : Nat)
deriving Repr, DecidableEq

namespace DstCol

/-- The document sub-column of a destination. -/
def json : DstCol → JsonColumn
  | .plain j _ => j
  | .nullable _ _ j _ => j

/-- `Column::is_nullable`. -/
def isNullable : DstCol → Bool
  | .plain _ _ => false
  | .nullable _ _ _ _ => true

/-- The null sub-column (empty for a bare destination). -/
def nulls : DstCol → List Bool
  | .plain _ _ => []
  | .nullable ns _ _ _ => ns

/-- The cached has-null flag (false for a bare destination). -/
def hasNull : DstCol → Bool
  | .plain _ _ => false
  | .nullable _ h _ _ => h

/-- The destination's delete/visibility state. -/
def deleteStateOf : DstCol → Nat
  | .plain _ d => d
  | .nullable _ _ _ d => d

/-- `Column::set_delete_state`. -/
def setDeleteState : DstCol → Nat → DstCol
  | .plain j _, d => .plain j d
  | .nullable ns h j _, d => .nullable ns h j d

end DstCol

/-! ## Cast plans

The type-cast evaluator is an external collaborator: a compiled cast
expression turns the scratch column's cells into a result column that the
reader inspects through `only_null` / `is_constant` / materialized. -/

/-- Shape of a cast-evaluator result column as the reader observes it. -/
inductive CastResult where
  | onlyNull
  | isConst (v : Cell)
  | materialized (vals : List Cell)
deriving Repr, DecidableEq

/-- A compiled cast expression (`VectorizedCastExprFactory::from_type`
output).  `evalLen` records the evaluator's contract that a materialized
result column is sized to its input batch. -/
structure CastPlan where
  eval : List Cell → Except Err CastResult
  evalLen : ∀ vs res, eval vs = .ok (.materialized res) → res.length = vs.length

/-- How `_read_and_cast` copies a cast result into the target flat field:
an all-null result appends that many nulls, a constant result appends the
single data value `source->size()` times, anything else copies the result
rows `[0, source->size())` verbatim. -/
def appendCastResult (target : List Cell) (res : CastResult) (n : Nat) : List Cell :=
  match res with
  | .onlyNull => target ++ List.replicate n (none : Cell)
  | .isConst v => target ++ List.replicate n v
  | .materialized vs => target ++ vs.take n

/-! ## Statistics -/

/-- The per-path access counters in `OlapReaderStatistics`. -/
structure Stats where
  flatJsonHits : String → Nat
  dynamicJsonHits : String → Nat

/-- The insert-or-add update both `init` functions perform on their hit
counter (`count == 0 ? 1 : old + 1`). -/
def bumpHit (f : String → Nat) (p : String) : String → Nat :=
  fun q => if q = p then f p + 1 else f q

/-! ## JsonFlatColumnIterator (precomputed-flat reader) -/

structure JsonFlatColumnIterator where
  /-- `_reader->num_rows()`: the only piece of the back-referenced column
  reader this translation unit consults. -/
  readerNumRows : Nat
  nullIter : Option (SubIter Bool)
  flatIters : List (SubIter Cell)
  flatPaths : List String
  targetTypes : List LogicalType
  sourceTypes : List LogicalType
  sourceColumns : List (Option FieldCol) := []
  castExprs : List (Option CastPlan) := []
  absPath : String

namespace JsonFlatColumnIterator

/-- The `init` loop over `_flat_iters`, fail-fast. -/
def initIters : List (SubIter Cell) → Except Err (List (SubIter Cell))
  | [] => .ok []
  | it :: its =>
    (it.initIter).bind fun it' => (initIters its).map fun r => it' :: r

/-- The `init` loop that fills `_cast_exprs`: a null entry when the target
equals the source type, otherwise a compiled cast from source to target. -/
def buildCastExprs (factory : LogicalType → LogicalType → CastPlan) :
    List LogicalType → List LogicalType → List (Option CastPlan)
  | t :: ts, s :: ss =>
    (if t = s then none else some (factory s t)) :: buildCastExprs factory ts ss
  | _, _ => []

/-- The `init` loop that fills `_source_columns`: a null entry when no cast
is needed, otherwise a fresh empty column of the source's physical type. -/
def buildSourceColumns : List LogicalType → List LogicalType → List (Option FieldCol)
  | t :: ts, s :: ss =>
    (if t = s then none else some { vals := [] }) :: buildSourceColumns ts ss
  | _, _ => []

/-- `JsonFlatColumnIterator::init`: initialize the null sub-iterator (when
present) then every flat-field sub-iterator, fail-fast; bump the
precomputed-flattening hit counter for the absolute path; build the cast
plans and scratch source columns.  The statistics sink is threaded
explicitly because it outlives the call even when `init` fails. -/
def init (factory : LogicalType → LogicalType → CastPlan)
    (st : JsonFlatColumnIterator) (stats : Stats) :
    Except Err JsonFlatColumnIterator × Stats :=
  match (match st.nullIter with
         | none => Except.ok (none : Option (SubIter Bool))
         | some ni => ni.initIter.map some) with
  | .error e => (.error e, stats)
  | .ok nullIter' =>
    match initIters st.flatIters with
    | .error e => (.error e, stats)
    | .ok flats' =>
      let stats' := { stats with flatJsonHits := bumpHit stats.flatJsonHits st.absPath }
      (.ok { st with
              nullIter := nullIter',
              flatIters := flats',
              castExprs := buildCastExprs factory st.targetTypes st.sourceTypes,
              sourceColumns := buildSourceColumns st.targetTypes st.sourceTypes },
       stats')

/-- One iteration of the `_read_and_cast` loop for flat field `i`: with no
cast plan the sub-iterator writes straight into the flat field; with a cast
plan it writes into an empty clone of the scratch source column, the cast
expression is evaluated on that one-column batch, the scratch's delete
state is propagated, and the cast result is copied per its shape.  A cast
plan without its scratch column is a fatal fault (null-pointer
`clone_empty`). -/
def stepField (m : ReadMode) (it : SubIter Cell) (plan? : Option CastPlan)
    (src? : Option FieldCol) (f : FieldCol) (n : Nat) :
    Except Err (SubIter Cell × FieldCol × Nat) :=
  match plan? with
  | none =>
    (it.read (none : Cell) m n).map fun r =>
      (r.1, { vals := f.vals ++ r.2.1, deleteState := it.emitDel }, r.2.2)
  | some plan =>
    match src? with
    | none => .error .internalFault
    | some scol =>
      let scratch := scol.cloneEmpty
      match it.read (none : Cell) m n with
      | .error e => .error e
      | .ok (it', vals, n') =>
        let source : FieldCol :=
          { vals := scratch.vals ++ vals, deleteState := it.emitDel }
        match plan.eval source.vals with
        | .error e => .error e
        | .ok res =>
          .ok (it',
               { vals := appendCastResult f.vals res source.vals.length,
                 deleteState := source.deleteState },
               n')

/-- The `_read_and_cast` loop over all flat fields, in order, threading the
in/out read count (`RETURN_IF_ERROR` is `Except.bind`); a positional
mismatch between the iterator, cast-plan, scratch-column and field lists is
a fatal fault (out-of-bounds `[i]`). -/
def readAndCastLoop (m : ReadMode) :
    List (SubIter Cell) → List (Option CastPlan) → List (Option FieldCol) →
    List FieldCol → Nat →
    Except Err (List (SubIter Cell) × List FieldCol × Nat)
  | [], [], [], [], n => .ok ([], [], n)
  | it :: its, plan? :: plans, src? :: srcs, f :: fs, n =>
    (stepField m it plan? src? f n).bind fun r =>
      (readAndCastLoop m its plans srcs fs r.2.2).bind fun w =>
        .ok (r.1 :: w.1, r.2.1 :: w.2.1, w.2.2)
  | _, _, _, _, _ => .error .internalFault

/-- The final value of flat field `i` after one `_read_and_cast` step, as a
function of the sub-iterator's pending values: with no cast plan the read
values are appended verbatim; with a cast plan the cast result is copied
per its shape, the field taking the scratch read's delete state. -/
def fieldAfter (m : ReadMode) (c : Nat) (it : SubIter Cell)
    (plan? : Option CastPlan) (f : FieldCol) : Except Err FieldCol :=
  let svals := it.readVals (none : Cell) m c
  match plan? with
  | none => .ok { vals := f.vals ++ svals, deleteState := it.emitDel }
  | some plan =>
    match plan.eval svals with
    | .error e => .error e
    | .ok res =>
      .ok { vals := appendCastResult f.vals res svals.length,
            deleteState := it.emitDel }

/-- `JsonFlatColumnIterator::_read_and_cast`: initialize the flat-field
storage from the fixed descriptors, then run the per-field loop. -/
def readAndCast (st : JsonFlatColumnIterator) (m : ReadMode) (j : JsonColumn)
    (n : Nat) : Except Err (JsonFlatColumnIterator × JsonColumn × Nat) :=
  let j0 := j.init_flat_columns st.flatPaths st.targetTypes
  (readAndCastLoop m st.flatIters st.castExprs st.sourceColumns j0.fields n).bind
    fun w => .ok ({ st with flatIters := w.1 }, { j0 with fields := w.2.1 }, w.2.2)

/-- `next_batch(size_t* n, Column* dst)`.  A nullable destination is split
into null and document sub-columns; with a null sub-iterator present the
null column is read first (updating the count and the cached has-null
flag).  A bare destination while a null sub-iterator is configured drives
`next_batch(n, nullptr)` and an invalid down-cast — a fatal fault.  A
nullable destination with no null sub-iterator is NOT checked here: the
null sub-column is simply left untouched. -/
def next_batch_n (st : JsonFlatColumnIterator) (n : Nat) (dst : DstCol) :
    Except Err (JsonFlatColumnIterator × DstCol × Nat) :=
  match dst with
  | .nullable nulls hasNull0 j del =>
    match st.nullIter with
    | some ni =>
      (ni.read false .nextN n).bind fun rn =>
        let nulls' := nulls ++ rn.2.1
        let hasNull' := nulls'.contains true
        (readAndCast { st with nullIter := some rn.1 } .nextN j rn.2.2).bind fun w =>
          .ok (w.1, .nullable nulls' hasNull' w.2.1 del, w.2.2)
    | none =>
      (readAndCast st .nextN j n).bind fun w =>
        .ok (w.1, .nullable nulls hasNull0 w.2.1 del, w.2.2)
  | .plain j del =>
    match st.nullIter with
    | some _ => .error .internalFault
    | none =>
      (readAndCast st .nextN j n).bind fun w =>
        .ok (w.1, .plain w.2.1 del, w.2.2)

/-- `next_batch(const SparseRange<>& range, Column* dst)`.  Identical to
the next-N entry except that it `CHECK`s the null-wrapping of the
destination against the presence of the null sub-iterator before reading —
both mismatches are fatal faults here. -/
def next_batch_range (st : JsonFlatColumnIterator) (r : SRange) (dst : DstCol) :
    Except Err (JsonFlatColumnIterator × DstCol × Nat) :=
  match dst with
  | .nullable nulls _hasNull0 j del =>
    match st.nullIter with
    | some ni =>
      (ni.read false (.srange r) 0).bind fun rn =>
        let nulls' := nulls ++ rn.2.1
        let hasNull' := nulls'.contains true
        (readAndCast { st with nullIter := some rn.1 } (.srange r) j rn.2.2).bind fun w =>
          .ok (w.1, .nullable nulls' hasNull' w.2.1 del, w.2.2)
    | none => .error .internalFault
  | .plain j del =>
    match st.nullIter with
    | some _ => .error .internalFault
    | none =>
      (readAndCast st (.srange r) j 0).bind fun w =>
        .ok (w.1, .plain w.2.1 del, w.2.2)

/-- `fetch_values_by_rowid(rowids, size, values)`.  With a null
sub-iterator the destination must be nullable (checked down-cast), without
one it must be bare (checked down-cast to `JsonColumn`); either mismatch is
a fatal fault. -/
def fetch_values_by_rowid (st : JsonFlatColumnIterator) (rs : List Nat)
    (dst : DstCol) : Except Err (JsonFlatColumnIterator × DstCol × Nat) :=
  match st.nullIter with
  | some ni =>
    match dst with
    | .plain _ _ => .error .internalFault
    | .nullable nulls _hasNull0 j del =>
      (ni.read false (.rowids rs) 0).bind fun rn =>
        let nulls' := nulls ++ rn.2.1
        let hasNull' := nulls'.contains true
        (readAndCast { st with nullIter := some rn.1 } (.rowids rs) j rn.2.2).bind fun w =>
          .ok (w.1, .nullable nulls' hasNull' w.2.1 del, w.2.2)
  | none =>
    match dst with
    | .nullable _ _ _ _ => .error .internalFault
    | .plain j del =>
      (readAndCast st (.rowids rs) j 0).bind fun w =>
        .ok (w.1, .plain w.2.1 del, w.2.2)

/-- Dispatcher over the three batch-read entry points, keyed by read
mode (`n` is only consumed by the next-N entry). -/
def batch_read (st : JsonFlatColumnIterator) (m : ReadMode) (n : Nat)
    (dst : DstCol) : Except Err (JsonFlatColumnIterator × DstCol × Nat) :=
  match m with
  | .nextN => st.next_batch_n n dst
  | .srange r => st.next_batch_range r dst
  | .rowids rs => st.fetch_values_by_rowid rs dst

/-- `get_current_ordinal`: unconditionally reads `_flat_iters[0]`;
`none` models the out-of-bounds access on an empty iterator list. -/
def get_current_ordinal (st : JsonFlatColumnIterator) : Option Nat :=
  (st.flatIters[0]?).map fun it => it.get_current_ordinal

/-- `num_rows`: unconditionally reads `_flat_iters[0]`; `none` models the
out-of-bounds access on an empty iterator list. -/
def num_rows (st : JsonFlatColumnIterator) : Option Nat :=
  (st.flatIters[0]?).map fun it => it.num_rows

/-- `get_row_ranges_by_zone_map`: ignores every predicate argument and adds
the reader's full row range to the output. -/
def get_row_ranges_by_zone_map (st : JsonFlatColumnIterator)
    (_predicates : List Pred) (_delPredicate : Option Pred)
    (rowRanges : SRange) (_predRelation : CompoundNodeType) :
    Except Err SRange :=
  .ok (rowRanges ++ [(0, st.readerNumRows)])

end JsonFlatColumnIterator

/-! ## JsonDynamicFlatIterator (runtime-flat reader) -/

/-- The flattening engine's output: one column of cells per requested flat
path, computed from a batch of raw documents (external collaborator). -/
abbrev FlattenFn := List (Option Doc) → List (List Cell)

structure JsonDynamicFlatIterator where
  jsonIter : SubIter (Option Doc)
  flatPaths : List String
  targetTypes : List LogicalType
  absPath : String
  /-- `_flattener`, default-constructed until `init` rebuilds it from the
  descriptor list. -/
  flattener : FlattenFn := fun _ => []

namespace JsonDynamicFlatIterator

/-- `JsonFlattener::flatten` writes each computed flat column into the
document sub-column's flat-field storage. -/
def applyFlatten (fl : FlattenFn) (input : List (Option Doc))
    (fields : List FieldCol) : List FieldCol :=
  List.zipWith (fun f nv => { f with vals := f.vals ++ nv }) fields (fl input)

/-- `JsonDynamicFlatIterator::init`: bump the runtime-flattening hit
counter for the absolute path, rebuild the flattening engine from the
fixed `(flat_paths, target_types)` descriptors, then initialize the single
raw-document sub-iterator (whose failure is the call's only failure).  The
counter bump and the engine construction precede the sub-iterator `init`,
so they happen even when it fails. -/
def init (mk : List String → List LogicalType → FlattenFn)
    (st : JsonDynamicFlatIterator) (stats : Stats) :
    Except Err JsonDynamicFlatIterator × Stats :=
  let stats' := { stats with dynamicJsonHits := bumpHit stats.dynamicJsonHits st.absPath }
  let fl := mk st.flatPaths st.targetTypes
  match st.jsonIter.initIter with
  | .error e => (.error e, stats')
  | .ok ji => (.ok { st with jsonIter := ji, flattener := fl }, stats')

/-- `JsonDynamicFlatIterator::_flat_json`: for a nullable output, append
the proxy's null sub-column into the output's null sub-column and OR the
has-null flags (the proxy's null data is derived from the raw cells the
scalar sub-iterator produced); then initialize the flat-field storage from
the fixed descriptors and run the flattening engine on the proxy's raw
document values. -/
def flatJson (st : JsonDynamicFlatIterator) (input : List (Option Doc))
    (output : DstCol) : DstCol :=
  match output with
  | .nullable nulls hasNull j del =>
    let inNulls := input.map Option.isNone
    let nulls' := nulls ++ inNulls
    let hasNull' := inNulls.contains true || hasNull
    let j0 := j.init_flat_columns st.flatPaths st.targetTypes
    .nullable nulls' hasNull'
      { j0 with fields := applyFlatten st.flattener input j0.fields } del
  | .plain j del =>
    let j0 := j.init_flat_columns st.flatPaths st.targetTypes
    .plain { j0 with fields := applyFlatten st.flattener input j0.fields } del

/-- The shared body of the three batch-read entry points: clone an empty
proxy shaped like the destination, read the raw document batch into it,
propagate the proxy's delete state onto the destination, then flatten. -/
def batch_read (st : JsonDynamicFlatIterator) (m : ReadMode) (n : Nat)
    (dst : DstCol) : Except Err (JsonDynamicFlatIterator × DstCol × Nat) :=
  (st.jsonIter.read (none : Option Doc) m n).bind fun r =>
    let dst1 := dst.setDeleteState st.jsonIter.emitDel
    .ok ({ st with jsonIter := r.1 }, st.flatJson r.2.1 dst1, r.2.2)

/-- `next_batch(size_t* n, Column* dst)`. -/
def next_batch_n (st : JsonDynamicFlatIterator) (n : Nat) (dst : DstCol) :
    Except Err (JsonDynamicFlatIterator × DstCol × Nat) :=
  st.batch_read .nextN n dst

/-- `next_batch(const SparseRange<>& range, Column* dst)`. -/
def next_batch_range (st : JsonDynamicFlatIterator) (r : SRange) (dst : DstCol) :
    Except Err (JsonDynamicFlatIterator × DstCol × Nat) :=
  st.batch_read (.srange r) 0 dst

/-- `fetch_values_by_rowid(rowids, size, values)`. -/
def fetch_values_by_rowid (st : JsonDynamicFlatIterator) (rs : List Nat)
    (dst : DstCol) : Except Err (JsonDynamicFlatIterator × DstCol × Nat) :=
  st.batch_read (.rowids rs) 0 dst

/-- `seek_to_first`: pass-through to the raw-document sub-iterator. -/
def seek_to_first (st : JsonDynamicFlatIterator) :
    Except Err JsonDynamicFlatIterator :=
  (st.jsonIter.seek_to_first).map fun ji => { st with jsonIter := ji }

/-- `seek_to_ordinal(ord)`: pass-through to the raw-document sub-iterator. -/
def seek_to_ordinal (st : JsonDynamicFlatIterator) (ord : Nat) :
    Except Err JsonDynamicFlatIterator :=
  (st.jsonIter.seek_to_ordinal ord).map fun ji => { st with jsonIter := ji }

/-- `get_current_ordinal`: pass-through. -/
def get_current_ordinal (st : JsonDynamicFlatIterator) : Nat :=
  st.jsonIter.get_current_ordinal

/-- `num_rows`: pass-through. -/
def num_rows (st : JsonDynamicFlatIterator) : Nat :=
  st.jsonIter.num_rows

/-- `get_row_ranges_by_zone_map`: pass-through to the raw-document
sub-iterator's own zone-map pruning, here abstracted as `zm`. -/
def get_row_ranges_by_zone_map
    (zm : SubIter (Option Doc) → List Pred → Option Pred → SRange →
          CompoundNodeType → Except Err SRange)
    (st : JsonDynamicFlatIterator) (predicates : List Pred)
    (delPredicate : Option Pred) (rowRanges : SRange)
    (predRelation : CompoundNodeType) : Except Err SRange :=
  zm st.jsonIter predicates delPredicate rowRanges predRelation

end JsonDynamicFlatIterator

/-! ## Concrete reader instances (used by claim witnesses) -/

def demoIntIter : SubIter Cell := { data := [some 1, some 2, none] }

def demoNullIter : SubIter Bool := { data := [false, false, true] }

def demoJson : JsonColumn :=
  { flatPaths := ["$.a"], targetTypes := [.intT], fields := [{ vals := [] }] }

def demoFlatReader : JsonFlatColumnIterator :=
  { readerNumRows := 1000,
    nullIter := some demoNullIter,
    flatIters := [demoIntIter],
    flatPaths := ["$.a"],
    targetTypes := [.intT],
    sourceTypes := [.intT],
    sourceColumns := [none],
    castExprs := [none],
    absPath := "$.col" }

def demoDst : DstCol := .nullable [] false demoJson 0

def demoDocIter : SubIter (Option Doc) := { data := [some 7, none] }

def demoFlattenEngine : List String → List LogicalType → FlattenFn :=
  fun _ _ => fun input => [input]

def demoDyn : JsonDynamicFlatIterator :=
  { jsonIter := demoDocIter, flatPaths := ["$.a"], targetTypes := [.intT],
    absPath := "$.dyn", flattener := fun input => [input] }

def demoDocIterInited : SubIter (Option Doc) := { demoDocIter with inited := true }

def demoDynInited : JsonDynamicFlatIterator :=
  { demoDyn with
    jsonIter := demoDocIterInited,
    flattener := demoFlattenEngine demoDyn.flatPaths demoDyn.targetTypes }

def demoDynBad : JsonDynamicFlatIterator :=
  { jsonIter := { data := [], failSeek := true }, flatPaths := [],
    targetTypes := [], absPath := "$.bad" }

def demoStats : Stats :=
  { flatJsonHits := fun _ => 0, dynamicJsonHits := fun _ => 0 }

def demoDocIterPos2 : SubIter (Option Doc) := { demoDocIter with pos := 2 }

def demoC7json0 : JsonColumn :=
  { flatPaths := ["$.a"], targetTypes := [.intT], fields := [{ vals := [] }] }

def demoC7st' : JsonDynamicFlatIterator :=
  { demoDyn with jsonIter := demoDocIterPos2 }

def demoC7dst' : DstCol :=
  .nullable [false, true] true
    { flatPaths := ["$.a"], targetTypes := [.intT],
      fields := [{ vals := [some 7, none] }] } 0

def demoNullIterPos2 : SubIter Bool := { demoNullIter with pos := 2 }

def demoIntIterPos2 : SubIter Cell := { demoIntIter with pos := 2 }

def demoC1st' : JsonFlatColumnIterator :=
  { demoFlatReader with
    nullIter := some demoNullIterPos2,
    flatIters := [demoIntIterPos2] }

def demoC1json' : JsonColumn :=
  { flatPaths := ["$.a"], targetTypes := [.intT],
    fields := [{ vals := [some 1, some 2] }] }

def demoC1dst' : DstCol := .nullable [false, false] false demoC1json' 0

def demoFactory : LogicalType → LogicalType → CastPlan :=
  fun _ _ =>
    { eval := fun vs => .ok (.materialized vs),
      evalLen := by
        intro vs res h
        injection h with h
        injection h with h
        rw [← h] }

def demoNullIterInited : SubIter Bool := { demoNullIter with inited := true }

def demoIntIterInited : SubIter Cell := { demoIntIter with inited := true }

def demoFlatInited : JsonFlatColumnIterator :=
  { demoFlatReader with
    nullIter := some demoNullIterInited,
    flatIters := [demoIntIterInited],
    castExprs := JsonFlatColumnIterator.buildCastExprs demoFactory
      demoFlatReader.targetTypes demoFlatReader.sourceTypes,
    sourceColumns := JsonFlatColumnIterator.buildSourceColumns
      demoFlatReader.targetTypes demoFlatReader.sourceTypes }

def demoConstPlan : CastPlan :=
  { eval := fun _ => .ok (.isConst (some 9)),
    evalLen := by
      intro vs res h
      injection h with h
      exact CastResult.noConfusion h }

def demoJsonB : JsonColumn :=
  { flatPaths := ["$.b"], targetTypes := [.varcharT], fields := [{ vals := [] }] }

def demoCastReader : JsonFlatColumnIterator :=
  { readerNumRows := 3,
    nullIter := none,
    flatIters := [demoIntIter],
    flatPaths := ["$.b"],
    targetTypes := [.varcharT],
    sourceTypes := [.intT],
    sourceColumns := [some { vals := [] }],
    castExprs := [some demoConstPlan],
    absPath := "$.colb" }

def demoC3st' : JsonFlatColumnIterator :=
  { demoCastReader with flatIters := [demoIntIterPos2] }

def demoC3json' : JsonColumn :=
  { flatPaths := ["$.b"], targetTypes := [.varcharT],
    fields := [{ vals := [some 9, some 9] }] }

def demoOnlyNullPlan : CastPlan :=
  { eval := fun _ => .ok .onlyNull,
    evalLen := by
      intro vs res h
      injection h with h
      exact CastResult.noConfusion h }

def demoCastReaderNull : JsonFlatColumnIterator :=
  { readerNumRows := 3,
    nullIter := none,
    flatIters := [demoIntIter],
    flatPaths := ["$.c"],
    targetTypes := [.doubleT],
    sourceTypes := [.intT],
    sourceColumns := [some { vals := [some 42, some 43] }],
    castExprs := [some demoOnlyNullPlan],
    absPath := "$.colc" }

def demoC4json0 : JsonColumn :=
  { flatPaths := ["$.c"], targetTypes := [.doubleT], fields := [{ vals := [] }] }

def demoC4st' : JsonFlatColumnIterator :=
  { demoCastReaderNull with flatIters := [demoIntIterPos2] }

def demoC4json' : JsonColumn :=
  { flatPaths := ["$.c"], targetTypes := [.doubleT],
    fields := [{ vals := [none, none] }] }

def c9Reader : JsonFlatColumnIterator :=
  { demoFlatReader with nullIter := none }

/-! ## Supporting lemmas -/

theorem except_bind_ok {α β : Type} (a : α) (g : α → Except Err β) :
    (Except.ok a).bind g = g a := rfl

theorem except_bind_error {α β : Type} (e : Err) (g : α → Except Err β) :
    (Except.error e : Except Err α).bind g = .error e := rfl

theorem take_min_length {α : Type} (l : List α) (n : Nat) :
    l.take n = l.take (min n l.length) := by
  rcases Nat.le_total n l.length with h | h
  · rw [Nat.min_eq_left h]
  · rw [Nat.min_eq_right h, List.take_of_length_le h, List.take_length]

namespace SubIter

variable {α : Type}

theorem readVals_min (it : SubIter α) (dflt : α) (m : ReadMode) (n R : Nat)
    (hR : it.remaining = R) :
    it.readVals dflt m n = it.readVals dflt m (min n R) := by
  cases m with
  | nextN =>
    simp only [readVals]
    rw [take_min_length (it.data.drop it.pos) n, List.length_drop]
    have : it.data.length - it.pos = R := hR
    rw [this]
  | srange r => rfl
  | rowids rs => rfl

theorem readVals_length (it : SubIter α) (dflt : α) (m : ReadMode) (c R : Nat)
    (hR : it.remaining = R) :
    (it.readVals dflt m c).length = modeCount m c R := by
  cases m with
  | nextN =>
    simp only [readVals, modeCount, List.length_take, List.length_drop]
    have : it.data.length - it.pos = R := hR
    omega
  | srange r => simp [readVals, modeCount, sRangeSize]
  | rowids rs => simp [readVals, modeCount]

theorem read_ok (it : SubIter α) (dflt : α) (m : ReadMode) (n : Nat)
    (it' : SubIter α) (vals : List α) (n' : Nat)
    (h : it.read dflt m n = .ok (it', vals, n')) :
    it.failRead = false ∧ it' = it.readAdvance m n ∧ vals = it.readVals dflt m n
    ∧ n' = modeNOut m n it.remaining := by
  by_cases hf : it.failRead = true
  · simp [read, hf] at h
  · simp only [read] at h
    rw [if_neg hf] at h
    injection h with h4
    simp only [Prod.mk.injEq] at h4
    obtain ⟨h1, h2, h3⟩ := h4
    exact ⟨by simpa using hf, h1.symm, h2.symm, h3.symm⟩

theorem initIter_cases (it : SubIter α) :
    (it.failInit = true ∧ it.initIter = .error .initError)
    ∨ (it.failInit = false ∧ it.initIter = .ok { it with inited := true }) := by
  by_cases h : it.failInit = true
  · left; exact ⟨h, by simp [initIter, h]⟩
  · right; exact ⟨by simpa using h, by simp [initIter, h]⟩

end SubIter

theorem modeNOut_idem (m : ReadMode) (n R : Nat) :
    modeNOut m (modeNOut m n R) R = modeNOut m n R := by
  cases m <;> simp [modeNOut, Nat.min_assoc]

theorem min_modeNOut (m : ReadMode) (n R : Nat) :
    min (modeNOut m n R) R = min n R := by
  cases m <;> simp [modeNOut, Nat.min_assoc]

theorem modeCount_min (m : ReadMode) (n R : Nat) :
    modeCount m (min n R) R = modeCount m n R := by
  cases m <;> simp [modeCount, Nat.min_assoc]

namespace JsonFlatColumnIterator

theorem stepField_ok (m : ReadMode) (it : SubIter Cell)
    (plan? : Option CastPlan) (src? : Option FieldCol) (f : FieldCol)
    (n R : Nat) (it' : SubIter Cell) (f' : FieldCol) (n' : Nat)
    (hR : it.remaining = R)
    (h : stepField m it plan? src? f n = .ok (it', f', n')) :
    fieldAfter m (min n R) it plan? f = .ok f'
    ∧ it' = it.readAdvance m n ∧ n' = modeNOut m n R := by
  cases plan? with
  | none =>
    by_cases hfr : it.failRead = true
    · simp [stepField, SubIter.read, hfr, Except.map] at h
    · simp only [stepField, SubIter.read] at h
      rw [if_neg hfr] at h
      simp only [Except.map] at h
      injection h with h4
      simp only [Prod.mk.injEq] at h4
      obtain ⟨h1, h2, h3⟩ := h4
      refine ⟨?_, h1.symm, by rw [← h3, hR]⟩
      simp only [fieldAfter]
      rw [← it.readVals_min (none : Cell) m n R hR, ← h2]
  | some plan =>
    cases src? with
    | none => simp [stepField] at h
    | some scol =>
      by_cases hfr : it.failRead = true
      · simp [stepField, SubIter.read, hfr] at h
      · simp only [stepField, SubIter.read] at h
        rw [if_neg hfr] at h
        simp only [FieldCol.cloneEmpty, List.nil_append] at h
        cases he : plan.eval (it.readVals (none : Cell) m n) with
        | error e => rw [he] at h; simp at h
        | ok res =>
          rw [he] at h
          injection h with h4
          simp only [Prod.mk.injEq] at h4
          obtain ⟨h1, h2, h3⟩ := h4
          refine ⟨?_, h1.symm, by rw [← h3, hR]⟩
          simp only [fieldAfter]
          rw [← it.readVals_min (none : Cell) m n R hR, he, ← h2]

/-- Successful `_read_and_cast` loops are characterized pointwise: every
flat field ends as `fieldAfter` of the sub-iterator it is backed by, at the
stabilized in/out count `min n R` (all sub-iterators aligned at `R`
remaining rows). -/
theorem readAndCastLoop_ok (m : ReadMode) (R : Nat) :
    ∀ (iters : List (SubIter Cell)) (plans : List (Option CastPlan))
      (srcs : List (Option FieldCol)) (fields : List FieldCol) (n : Nat)
      (its' : List (SubIter Cell)) (fs' : List FieldCol) (n' : Nat),
      (∀ it ∈ iters, it.remaining = R) →
      readAndCastLoop m iters plans srcs fields n = .ok (its', fs', n') →
      fs'.length = iters.length ∧
      (∀ (i : Nat) (it : SubIter Cell) (plan? : Option CastPlan) (f : FieldCol),
        iters[i]? = some it → plans[i]? = some plan? →
        fields[i]? = some f →
        ∃ f', fs'[i]? = some f' ∧ fieldAfter m (min n R) it plan? f = .ok f') := by
  intro iters
  induction iters with
  | nil =>
    intro plans srcs fields n its' fs' n' _ hok
    match plans, srcs, fields with
    | [], [], [] =>
      simp only [readAndCastLoop] at hok
      injection hok with h4
      simp only [Prod.mk.injEq] at h4
      obtain ⟨-, h2, -⟩ := h4
      refine ⟨by simp [← h2], ?_⟩
      intro i it plan? f hit hplan hf
      rw [List.getElem?_nil] at hit
      cases hit
    | p :: ps, _, _ => simp [readAndCastLoop] at hok
    | [], s :: ss, _ => simp [readAndCastLoop] at hok
    | [], [], g :: gs => simp [readAndCastLoop] at hok
  | cons it0 its ih =>
    intro plans srcs fields n its' fs' n' hrem hok
    match plans, srcs, fields with
    | [], _, _ => simp [readAndCastLoop] at hok
    | p :: ps, [], _ => simp [readAndCastLoop] at hok
    | p :: ps, s :: ss, [] => simp [readAndCastLoop] at hok
    | p :: ps, s :: ss, g :: gs =>
      simp only [readAndCastLoop] at hok
      cases hstep : stepField m it0 p s g n with
      | error e => rw [hstep, except_bind_error] at hok; exact Except.noConfusion hok
      | ok v =>
        obtain ⟨it1, f1, n1⟩ := v
        simp only [hstep, except_bind_ok] at hok
        cases hrec : readAndCastLoop m its ps ss gs n1 with
        | error e =>
          rw [hrec, except_bind_error] at hok
          exact Except.noConfusion hok
        | ok w =>
          obtain ⟨its1, fs1, n2⟩ := w
          simp only [hrec, except_bind_ok] at hok
          injection hok with h4
          simp only [Prod.mk.injEq] at h4
          obtain ⟨-, hfs, -⟩ := h4
          have hR0 : it0.remaining = R := hrem it0 (List.mem_cons_self it0 its)
          obtain ⟨hfield, -, hn1⟩ :=
            stepField_ok m it0 p s g n R it1 f1 n1 hR0 hstep
          have hremT : ∀ it ∈ its, it.remaining = R := by
            intro it hit; exact hrem it (List.mem_cons_of_mem _ hit)
          obtain ⟨hlen, hidx⟩ := ih ps ss gs n1 its1 fs1 n2 hremT hrec
          constructor
          · rw [← hfs]; simp [hlen]
          · intro i it plan? f hit hplan hf
            cases i with
            | zero =>
              rw [List.getElem?_cons_zero] at hit hplan hf
              injection hit with hit
              injection hplan with hplan
              injection hf with hf
              refine ⟨f1, ?_, ?_⟩
              · rw [← hfs]; exact List.getElem?_cons_zero
              · rw [← hit, ← hplan, ← hf]; exact hfield
            | succ i =>
              rw [List.getElem?_cons_succ] at hit hplan hf
              obtain ⟨f', hf', hfa⟩ := hidx i it plan? f hit hplan hf
              refine ⟨f', ?_, ?_⟩
              · rw [← hfs, List.getElem?_cons_succ]; exact hf'
              · rw [hn1, min_modeNOut] at hfa; exact hfa

theorem fieldAfter_count_irrel (m : ReadMode) (c c' : Nat) (it : SubIter Cell)
    (plan? : Option CastPlan) (f : FieldCol) (hne : m ≠ .nextN) :
    fieldAfter m c it plan? f = fieldAfter m c' it plan? f := by
  cases m with
  | nextN => exact absurd rfl hne
  | srange r => rfl
  | rowids rs => rfl

theorem fieldAfter_ok_length (m : ReadMode) (c R : Nat) (it : SubIter Cell)
    (plan? : Option CastPlan) (f f' : FieldCol)
    (hR : it.remaining = R)
    (h : fieldAfter m c it plan? f = .ok f') :
    f'.vals.length = f.vals.length + modeCount m c R := by
  have hk : (it.readVals (none : Cell) m c).length = modeCount m c R :=
    it.readVals_length (none : Cell) m c R hR
  cases plan? with
  | none =>
    simp only [fieldAfter] at h
    injection h with h4
    rw [← h4]
    simp [hk]
  | some plan =>
    simp only [fieldAfter] at h
    cases he : plan.eval (it.readVals (none : Cell) m c) with
    | error e => rw [he] at h; exact absurd h (by simp)
    | ok res =>
      rw [he] at h
      injection h with h4
      rw [← h4]
      cases res with
      | onlyNull => simp [appendCastResult, hk]
      | isConst v => simp [appendCastResult, hk]
      | materialized vs =>
        have hvs := plan.evalLen _ _ he
        simp only [appendCastResult, List.length_append, List.length_take]
        omega

theorem init_flat_columns_paths (j : JsonColumn) (p : List String)
    (t : List LogicalType) :
    (j.init_flat_columns p t).flatPaths = p ∧
    (j.init_flat_columns p t).targetTypes = t := by
  simp only [JsonColumn.init_flat_columns]
  split <;> exact ⟨rfl, rfl⟩

theorem init_flat_columns_keep (j : JsonColumn) (p : List String)
    (t : List LogicalType) (h : j.fields.length = p.length) :
    (j.init_flat_columns p t).fields = j.fields := by
  simp [JsonColumn.init_flat_columns, h]

theorem init_flat_columns_length (j : JsonColumn) (p : List String)
    (t : List LogicalType) :
    (j.init_flat_columns p t).fields.length = max j.fields.length p.length ∨
    (j.init_flat_columns p t).fields.length = p.length ∨
    (j.init_flat_columns p t).fields.length = j.fields.length := by
  simp only [JsonColumn.init_flat_columns]
  split
  · right; right; rfl
  · right; left; simp

theorem readAndCast_ok_inv (st : JsonFlatColumnIterator) (m : ReadMode)
    (j : JsonColumn) (n R : Nat) (st2 : JsonFlatColumnIterator)
    (j2 : JsonColumn) (n2 : Nat)
    (halign : ∀ it ∈ st.flatIters, it.remaining = R)
    (h : st.readAndCast m j n = .ok (st2, j2, n2)) :
    j2.flatPaths = st.flatPaths ∧ j2.targetTypes = st.targetTypes ∧
    j2.fields.length = st.flatIters.length ∧
    (∀ (i : Nat) (it : SubIter Cell) (plan? : Option CastPlan) (f : FieldCol),
      st.flatIters[i]? = some it → st.castExprs[i]? = some plan? →
      (j.init_flat_columns st.flatPaths st.targetTypes).fields[i]? = some f →
      ∃ f', j2.fields[i]? = some f' ∧ fieldAfter m (min n R) it plan? f = .ok f') := by
  simp only [readAndCast] at h
  cases hloop : readAndCastLoop m st.flatIters st.castExprs st.sourceColumns
      ((j.init_flat_columns st.flatPaths st.targetTypes).fields) n with
  | error e => rw [hloop, except_bind_error] at h; exact Except.noConfusion h
  | ok w =>
    obtain ⟨its', fs', n'⟩ := w
    simp only [hloop, except_bind_ok] at h
    injection h with h4
    simp only [Prod.mk.injEq] at h4
    obtain ⟨-, hj2, -⟩ := h4
    obtain ⟨hlen, hidx⟩ := readAndCastLoop_ok m R st.flatIters st.castExprs
      st.sourceColumns _ n its' fs' n' halign hloop
    obtain ⟨hp, ht⟩ := init_flat_columns_paths j st.flatPaths st.targetTypes
    refine ⟨?_, ?_, ?_, ?_⟩
    · rw [← hj2]; exact hp
    · rw [← hj2]; exact ht
    · rw [← hj2]; exact hlen
    · intro i it plan? f hit hplan hf
      obtain ⟨f', hf', hfa⟩ := hidx i it plan? f hit hplan hf
      exact ⟨f', by rw [← hj2]; exact hf', hfa⟩

/-- Master inversion for the three batch-read entry points under a
well-matched destination: the result keeps the destination's wrapping, the
flat fields are characterized pointwise by `fieldAfter`, and the null
sub-column received exactly the null sub-iterator's read values. -/
theorem batch_read_ok_inv (st : JsonFlatColumnIterator) (m : ReadMode)
    (n R : Nat) (dst : DstCol) (st' : JsonFlatColumnIterator) (dst' : DstCol)
    (nOut : Nat)
    (halign : ∀ it ∈ st.flatIters, it.remaining = R)
    (hnalign : ∀ ni, st.nullIter = some ni → ni.remaining = R)
    (hshape : dst.isNullable = st.nullIter.isSome)
    (h : st.batch_read m n dst = .ok (st', dst', nOut)) :
    dst'.isNullable = dst.isNullable
    ∧ dst'.json.flatPaths = st.flatPaths
    ∧ dst'.json.fields.length = st.flatIters.length
    ∧ (∀ (i : Nat) (it : SubIter Cell) (plan? : Option CastPlan) (f : FieldCol),
        st.flatIters[i]? = some it → st.castExprs[i]? = some plan? →
        (dst.json.init_flat_columns st.flatPaths st.targetTypes).fields[i]? = some f →
        ∃ f', dst'.json.fields[i]? = some f' ∧
          fieldAfter m (min n R) it plan? f = .ok f')
    ∧ (∀ ni, st.nullIter = some ni →
        ni.failRead = false ∧ dst'.nulls = dst.nulls ++ ni.readVals false m n) := by
  cases m with
  | nextN =>
    cases hni : st.nullIter with
    | some ni =>
      cases dst with
      | plain j del => rw [hni] at hshape; simp [DstCol.isNullable] at hshape
      | nullable nulls hasN j del =>
        simp only [batch_read, next_batch_n, hni] at h
        cases hr : ni.read false .nextN n with
        | error e => rw [hr, except_bind_error] at h; exact Except.noConfusion h
        | ok v =>
          obtain ⟨ni', nvals, n1⟩ := v
          simp only [hr, except_bind_ok] at h
          obtain ⟨hfr, -, hvals, hn1⟩ := ni.read_ok false .nextN n ni' nvals n1 hr
          cases hrc : readAndCast { st with nullIter := some ni' } .nextN j n1 with
          | error e => rw [hrc, except_bind_error] at h; exact Except.noConfusion h
          | ok w =>
            obtain ⟨st2, j2, n2⟩ := w
            simp only [hrc, except_bind_ok] at h
            injection h with h4
            simp only [Prod.mk.injEq] at h4
            obtain ⟨-, hdst, -⟩ := h4
            obtain ⟨hp, -, hlen, hidx⟩ :=
              readAndCast_ok_inv { st with nullIter := some ni' } .nextN j n1 R
                st2 j2 n2 halign hrc
            have hRn : ni.remaining = R := hnalign ni hni
            have hmin : min n1 R = min n R := by
              rw [hn1, hRn]; exact min_modeNOut .nextN n R
            refine ⟨by rw [← hdst]; rfl, by rw [← hdst]; exact hp,
                    by rw [← hdst]; exact hlen, ?_, ?_⟩
            · intro i it plan? f hit hplan hf
              obtain ⟨f', hf', hfa⟩ := hidx i it plan? f hit hplan hf
              rw [hmin] at hfa
              exact ⟨f', by rw [← hdst]; exact hf', hfa⟩
            · intro ni0 hni0
              injection hni0 with hni0
              rw [← hni0]
              exact ⟨hfr, by rw [← hdst]; simp [DstCol.nulls, hvals]⟩
    | none =>
      cases dst with
      | nullable nulls hasN j del => rw [hni] at hshape; simp [DstCol.isNullable] at hshape
      | plain j del =>
        simp only [batch_read, next_batch_n, hni] at h
        cases hrc : readAndCast st .nextN j n with
        | error e => rw [hrc, except_bind_error] at h; exact Except.noConfusion h
        | ok w =>
          obtain ⟨st2, j2, n2⟩ := w
          simp only [hrc, except_bind_ok] at h
          injection h with h4
          simp only [Prod.mk.injEq] at h4
          obtain ⟨-, hdst, -⟩ := h4
          obtain ⟨hp, -, hlen, hidx⟩ :=
            readAndCast_ok_inv st .nextN j n R st2 j2 n2 halign hrc
          refine ⟨by rw [← hdst]; rfl, by rw [← hdst]; exact hp,
                  by rw [← hdst]; exact hlen, ?_, ?_⟩
          · intro i it plan? f hit hplan hf
            obtain ⟨f', hf', hfa⟩ := hidx i it plan? f hit hplan hf
            exact ⟨f', by rw [← hdst]; exact hf', hfa⟩
          · intro ni0 hni0; exact Option.noConfusion hni0
  | srange r =>
    cases hni : st.nullIter with
    | some ni =>
      cases dst with
      | plain j del => rw [hni] at hshape; simp [DstCol.isNullable] at hshape
      | nullable nulls hasN j del =>
        simp only [batch_read, next_batch_range, hni] at h
        cases hr : ni.read false (.srange r) 0 with
        | error e => rw [hr, except_bind_error] at h; exact Except.noConfusion h
        | ok v =>
          obtain ⟨ni', nvals, n1⟩ := v
          simp only [hr, except_bind_ok] at h
          obtain ⟨hfr, -, hvals, hn1⟩ := ni.read_ok false (.srange r) 0 ni' nvals n1 hr
          cases hrc : readAndCast { st with nullIter := some ni' } (.srange r) j n1 with
          | error e => rw [hrc, except_bind_error] at h; exact Except.noConfusion h
          | ok w =>
            obtain ⟨st2, j2, n2⟩ := w
            simp only [hrc, except_bind_ok] at h
            injection h with h4
            simp only [Prod.mk.injEq] at h4
            obtain ⟨-, hdst, -⟩ := h4
            obtain ⟨hp, -, hlen, hidx⟩ :=
              readAndCast_ok_inv { st with nullIter := some ni' } (.srange r) j n1 R
                st2 j2 n2 halign hrc
            refine ⟨by rw [← hdst]; rfl, by rw [← hdst]; exact hp,
                    by rw [← hdst]; exact hlen, ?_, ?_⟩
            · intro i it plan? f hit hplan hf
              obtain ⟨f', hf', hfa⟩ := hidx i it plan? f hit hplan hf
              rw [fieldAfter_count_irrel (.srange r) (min n1 R)
                    (min n R) it plan? f (by intro hx; cases hx)] at hfa
              exact ⟨f', by rw [← hdst]; exact hf', hfa⟩
            · intro ni0 hni0
              injection hni0 with hni0
              rw [← hni0]
              refine ⟨hfr, by rw [← hdst]; simp [DstCol.nulls, hvals]; rfl⟩
    | none =>
      cases dst with
      | nullable nulls hasN j del => rw [hni] at hshape; simp [DstCol.isNullable] at hshape
      | plain j del =>
        simp only [batch_read, next_batch_range, hni] at h
        cases hrc : readAndCast st (.srange r) j 0 with
        | error e => rw [hrc, except_bind_error] at h; exact Except.noConfusion h
        | ok w =>
          obtain ⟨st2, j2, n2⟩ := w
          simp only [hrc, except_bind_ok] at h
          injection h with h4
          simp only [Prod.mk.injEq] at h4
          obtain ⟨-, hdst, -⟩ := h4
          obtain ⟨hp, -, hlen, hidx⟩ :=
            readAndCast_ok_inv st (.srange r) j 0 R st2 j2 n2 halign hrc
          refine ⟨by rw [← hdst]; rfl, by rw [← hdst]; exact hp,
                  by rw [← hdst]; exact hlen, ?_, ?_⟩
          · intro i it plan? f hit hplan hf
            obtain ⟨f', hf', hfa⟩ := hidx i it plan? f hit hplan hf
            rw [fieldAfter_count_irrel (.srange r) (min 0 R)
                  (min n R) it plan? f (by intro hx; cases hx)] at hfa
            exact ⟨f', by rw [← hdst]; exact hf', hfa⟩
          · intro ni0 hni0; exact Option.noConfusion hni0
  | rowids rs =>
    cases hni : st.nullIter with
    | some ni =>
      cases dst with
      | plain j del => rw [hni] at hshape; simp [DstCol.isNullable] at hshape
      | nullable nulls hasN j del =>
        simp only [batch_read, fetch_values_by_rowid, hni] at h
        cases hr : ni.read false (.rowids rs) 0 with
        | error e => rw [hr, except_bind_error] at h; exact Except.noConfusion h
        | ok v =>
          obtain ⟨ni', nvals, n1⟩ := v
          simp only [hr, except_bind_ok] at h
          obtain ⟨hfr, -, hvals, hn1⟩ := ni.read_ok false (.rowids rs) 0 ni' nvals n1 hr
          cases hrc : readAndCast { st with nullIter := some ni' } (.rowids rs) j n1 with
          | error e => rw [hrc, except_bind_error] at h; exact Except.noConfusion h
          | ok w =>
            obtain ⟨st2, j2, n2⟩ := w
            simp only [hrc, except_bind_ok] at h
            injection h with h4
            simp only [Prod.mk.injEq] at h4
            obtain ⟨-, hdst, -⟩ := h4
            obtain ⟨hp, -, hlen, hidx⟩ :=
              readAndCast_ok_inv { st with nullIter := some ni' } (.rowids rs) j n1 R
                st2 j2 n2 halign hrc
            refine ⟨by rw [← hdst]; rfl, by rw [← hdst]; exact hp,
                    by rw [← hdst]; exact hlen, ?_, ?_⟩
            · intro i it plan? f hit hplan hf
              obtain ⟨f', hf', hfa⟩ := hidx i it plan? f hit hplan hf
              rw [fieldAfter_count_irrel (.rowids rs) (min n1 R)
                    (min n R) it plan? f (by intro hx; cases hx)] at hfa
              exact ⟨f', by rw [← hdst]; exact hf', hfa⟩
            · intro ni0 hni0
              injection hni0 with hni0
              rw [← hni0]
              refine ⟨hfr, by rw [← hdst]; simp [DstCol.nulls, hvals]; rfl⟩
    | none =>
      cases dst with
      | nullable nulls hasN j del => rw [hni] at hshape; simp [DstCol.isNullable] at hshape
      | plain j del =>
        simp only [batch_read, fetch_values_by_rowid, hni] at h
        cases hrc : readAndCast st (.rowids rs) j 0 with
        | error e => rw [hrc, except_bind_error] at h; exact Except.noConfusion h
        | ok w =>
          obtain ⟨st2, j2, n2⟩ := w
          simp only [hrc, except_bind_ok] at h
          injection h with h4
          simp only [Prod.mk.injEq] at h4
          obtain ⟨-, hdst, -⟩ := h4
          obtain ⟨hp, -, hlen, hidx⟩ :=
            readAndCast_ok_inv st (.rowids rs) j 0 R st2 j2 n2 halign hrc
          refine ⟨by rw [← hdst]; rfl, by rw [← hdst]; exact hp,
                  by rw [← hdst]; exact hlen, ?_, ?_⟩
          · intro i it plan? f hit hplan hf
            obtain ⟨f', hf', hfa⟩ := hidx i it plan? f hit hplan hf
            rw [fieldAfter_count_irrel (.rowids rs) (min 0 R)
                  (min n R) it plan? f (by intro hx; cases hx)] at hfa
            exact ⟨f', by rw [← hdst]; exact hf', hfa⟩
          · intro ni0 hni0; exact Option.noConfusion hni0

theorem buildCastExprs_getElem (factory : LogicalType → LogicalType → CastPlan) :
    ∀ (ts ss : List LogicalType) (i : Nat) (t : LogicalType),
      ts[i]? = some t → ss[i]? = some t →
      (buildCastExprs factory ts ss)[i]? = some none := by
  intro ts
  induction ts with
  | nil => intro ss i t ht; rw [List.getElem?_nil] at ht; exact Option.noConfusion ht
  | cons t0 ts ih =>
    intro ss i t ht hs
    cases ss with
    | nil => rw [List.getElem?_nil] at hs; exact Option.noConfusion hs
    | cons s0 ss =>
      cases i with
      | zero =>
        rw [List.getElem?_cons_zero] at ht hs
        injection ht with ht
        injection hs with hs
        have : t0 = s0 := by rw [ht, hs]
        simp [buildCastExprs, this]
      | succ i =>
        rw [List.getElem?_cons_succ] at ht hs
        simp only [buildCastExprs, List.getElem?_cons_succ]
        exact ih ss i t ht hs

theorem init_ok_inv (factory : LogicalType → LogicalType → CastPlan)
    (st st' : JsonFlatColumnIterator) (stats stats' : Stats)
    (h : st.init factory stats = (.ok st', stats')) :
    st'.castExprs = buildCastExprs factory st.targetTypes st.sourceTypes
    ∧ st'.sourceColumns = buildSourceColumns st.targetTypes st.sourceTypes
    ∧ st'.flatPaths = st.flatPaths ∧ st'.targetTypes = st.targetTypes
    ∧ st'.sourceTypes = st.sourceTypes
    ∧ stats'.flatJsonHits = bumpHit stats.flatJsonHits st.absPath := by
  simp only [init] at h
  cases hN : (match st.nullIter with
              | none => Except.ok (none : Option (SubIter Bool))
              | some ni => ni.initIter.map some) with
  | error e =>
    rw [hN] at h
    simp only [Prod.mk.injEq] at h
    exact absurd h.1 (by simp)
  | ok nullIter' =>
    rw [hN] at h
    cases hF : initIters st.flatIters with
    | error e =>
      rw [hF] at h
      simp only [Prod.mk.injEq] at h
      exact absurd h.1 (by simp)
    | ok flats' =>
      rw [hF] at h
      simp only [Prod.mk.injEq] at h
      obtain ⟨h1, h2⟩ := h
      injection h1 with h1
      rw [← h1, ← h2]
      exact ⟨rfl, rfl, rfl, rfl, rfl, rfl⟩

end JsonFlatColumnIterator

/-! ## Claims -/

/-- C5: the Precomputed-Flat Reader's `get_row_ranges_by_zone_map` ignores
every predicate, delete-predicate and predicate-relation argument, succeeds,
and yields the single full row range `[0, num_rows)`; every row below
`num_rows` is inside the returned range, so no row is ever pruned. -/
theorem C5_zone_map_full_range (st : JsonFlatColumnIterator)
    (predicates : List Pred) (delPredicate : Option Pred)
    (predRelation : CompoundNodeType) :
    st.get_row_ranges_by_zone_map predicates delPredicate [] predRelation
      = .ok [(0, st.readerNumRows)]
    ∧ (∀ i, i < st.readerNumRows → i ∈ sRangeRows [(0, st.readerNumRows)]) := by
  refine ⟨rfl, ?_⟩
  intro i hi
  have : i ∈ List.range' 0 st.readerNumRows := by
    rw [List.mem_range']
    exact ⟨i, hi, by omega⟩
  simpa [sRangeRows] using this

theorem C5_witness :
    demoFlatReader.get_row_ranges_by_zone_map [1, 2] (some 3) [] .orNode
      = .ok [(0, 1000)]
    ∧ 3 ∈ sRangeRows [(0, 1000)] :=
  ⟨(C5_zone_map_full_range demoFlatReader [1, 2] (some 3) .orNode).1,
   (C5_zone_map_full_range demoFlatReader [1, 2] (some 3) .orNode).2 3 (by decide)⟩

/-- C10: `get_current_ordinal` and `num_rows` of the Precomputed-Flat
Reader unconditionally read the first flat-field sub-iterator; they are
defined (`some`) exactly when the reader owns at least one flat-field
sub-iterator, and on an empty sub-iterator list the access is out of
bounds (`none`). -/
theorem C10_ordinal_accessors (st : JsonFlatColumnIterator) :
    st.get_current_ordinal = (st.flatIters.head?).map SubIter.get_current_ordinal
    ∧ st.num_rows = (st.flatIters.head?).map SubIter.num_rows
    ∧ (st.get_current_ordinal = none ↔ st.flatIters = [])
    ∧ (st.num_rows = none ↔ st.flatIters = []) := by
  rcases hfi : st.flatIters with _ | ⟨it, rest⟩ <;>
    simp [JsonFlatColumnIterator.get_current_ordinal,
          JsonFlatColumnIterator.num_rows, hfi]

theorem C10_witness :
    demoFlatReader.get_current_ordinal = some 0
    ∧ demoFlatReader.num_rows = some 3
    ∧ JsonFlatColumnIterator.get_current_ordinal
        { demoFlatReader with flatIters := [] } = none := by
  have h1 := C10_ordinal_accessors demoFlatReader
  have h2 := C10_ordinal_accessors { demoFlatReader with flatIters := [] }
  exact ⟨h1.1, h1.2.1, h2.2.2.1.mpr rfl⟩

/-- C6: every navigation operation of the Runtime-Flat Reader
(`seek_to_first`, `seek_to_ordinal`, `get_current_ordinal`, `num_rows`,
`get_row_ranges_by_zone_map`) is a pure pass-through to the single
raw-document sub-iterator for the same arguments, errors included. -/
theorem C6_dynamic_pass_through
    (zm : SubIter (Option Doc) → List Pred → Option Pred → SRange →
          CompoundNodeType → Except Err SRange)
    (st : JsonDynamicFlatIterator) (ord : Nat) (predicates : List Pred)
    (delPredicate : Option Pred) (rowRanges : SRange)
    (predRelation : CompoundNodeType) :
    st.seek_to_first
      = (st.jsonIter.seek_to_first).map (fun ji => { st with jsonIter := ji })
    ∧ st.seek_to_ordinal ord
      = (st.jsonIter.seek_to_ordinal ord).map (fun ji => { st with jsonIter := ji })
    ∧ st.get_current_ordinal = st.jsonIter.get_current_ordinal
    ∧ st.num_rows = st.jsonIter.num_rows
    ∧ JsonDynamicFlatIterator.get_row_ranges_by_zone_map zm st predicates
        delPredicate rowRanges predRelation
      = zm st.jsonIter predicates delPredicate rowRanges predRelation
    ∧ (st.jsonIter.failSeek = true →
        st.seek_to_first = .error .readError
        ∧ st.seek_to_ordinal ord = .error .readError) := by
  refine ⟨rfl, rfl, rfl, rfl, rfl, ?_⟩
  intro hf
  constructor <;>
    simp [JsonDynamicFlatIterator.seek_to_first,
          JsonDynamicFlatIterator.seek_to_ordinal, SubIter.seek_to_first,
          SubIter.seek_to_ordinal, Except.map, hf]

theorem C6_witness :
    demoDynBad.seek_to_first = .error .readError
    ∧ demoDyn.get_current_ordinal = demoDyn.jsonIter.get_current_ordinal :=
  ⟨((C6_dynamic_pass_through (fun _ _ _ rr _ => .ok rr) demoDynBad 0 [] none []
      .andNode).2.2.2.2.2 rfl).1,
   (C6_dynamic_pass_through (fun _ _ _ rr _ => .ok rr) demoDyn 0 [] none []
      .andNode).2.2.1⟩

/-- C8: the Runtime-Flat Reader's `init` bumps the runtime-flattening hit
counter for the reader's absolute path exactly once (and touches no other
path and not the precomputed counter), rebuilds the flattening engine from
the fixed descriptor list, initializes the raw-document sub-iterator, and
fails with an initialization error exactly when that sub-iterator's own
`init` fails. -/
theorem C8_dynamic_init (mk : List String → List LogicalType → FlattenFn)
    (st : JsonDynamicFlatIterator) (stats : Stats) :
    ((st.init mk stats).2.dynamicJsonHits st.absPath
        = stats.dynamicJsonHits st.absPath + 1)
    ∧ (∀ p, p ≠ st.absPath →
        (st.init mk stats).2.dynamicJsonHits p = stats.dynamicJsonHits p)
    ∧ ((st.init mk stats).2.flatJsonHits = stats.flatJsonHits)
    ∧ ((st.init mk stats).1 = .error .initError ↔ st.jsonIter.failInit = true)
    ∧ (∀ st', (st.init mk stats).1 = .ok st' →
        st'.jsonIter.inited = true
        ∧ st'.flattener = mk st.flatPaths st.targetTypes
        ∧ st'.flatPaths = st.flatPaths ∧ st'.targetTypes = st.targetTypes) := by
  rcases SubIter.initIter_cases st.jsonIter with ⟨hf, hI⟩ | ⟨hf, hI⟩
  · refine ⟨?_, ?_, ?_, ?_, ?_⟩
    · simp [JsonDynamicFlatIterator.init, hI, bumpHit]
    · intro p hp
      simp [JsonDynamicFlatIterator.init, hI, bumpHit, hp]
    · simp [JsonDynamicFlatIterator.init, hI]
    · simp [JsonDynamicFlatIterator.init, hI, hf]
    · intro st' hst'
      simp [JsonDynamicFlatIterator.init, hI] at hst'
  · refine ⟨?_, ?_, ?_, ?_, ?_⟩
    · simp [JsonDynamicFlatIterator.init, hI, bumpHit]
    · intro p hp
      simp [JsonDynamicFlatIterator.init, hI, bumpHit, hp]
    · simp [JsonDynamicFlatIterator.init, hI]
    · simp [JsonDynamicFlatIterator.init, hI, hf]
    · intro st' hst'
      simp only [JsonDynamicFlatIterator.init, hI] at hst'
      injection hst' with hst'
      rw [← hst']
      exact ⟨rfl, rfl, rfl, rfl⟩

theorem C8_witness :
    (demoDyn.init demoFlattenEngine demoStats).2.dynamicJsonHits "$.dyn" = 1
    ∧ (demoDyn.init demoFlattenEngine demoStats).2.dynamicJsonHits "$.other" = 0
    ∧ demoDynInited.jsonIter.inited = true := by
  have h := C8_dynamic_init demoFlattenEngine demoDyn demoStats
  exact ⟨h.1, h.2.1 "$.other" (by decide), (h.2.2.2.2 demoDynInited rfl).1⟩

/-- C7: for every batch read of the Runtime-Flat Reader into a
null-wrapped destination, the proxy's null sub-column (derived from the raw
document batch the sub-iterator produced) is appended into the
destination's null sub-column, the destination's has-null flag becomes the
OR of the proxy's and the destination's previous flag — so a true flag is
never unset — and the proxy's delete state is propagated onto the
destination. -/
theorem C7_dynamic_null_propagation (st st' : JsonDynamicFlatIterator)
    (m : ReadMode) (n nOut : Nat) (nulls : List Bool) (hasNull0 : Bool)
    (j : JsonColumn) (del : Nat) (dst' : DstCol)
    (h : st.batch_read m n (.nullable nulls hasNull0 j del)
          = .ok (st', dst', nOut)) :
    dst'.isNullable = true
    ∧ dst'.nulls
        = nulls ++ (st.jsonIter.readVals (none : Option Doc) m n).map Option.isNone
    ∧ dst'.hasNull
        = (((st.jsonIter.readVals (none : Option Doc) m n).map
              Option.isNone).contains true || hasNull0)
    ∧ (hasNull0 = true → dst'.hasNull = true)
    ∧ dst'.deleteStateOf = st.jsonIter.emitDel := by
  simp only [JsonDynamicFlatIterator.batch_read] at h
  cases hr : st.jsonIter.read (none : Option Doc) m n with
  | error e => rw [hr, except_bind_error] at h; exact Except.noConfusion h
  | ok v =>
    obtain ⟨ji', docs, n1⟩ := v
    simp only [hr, except_bind_ok] at h
    obtain ⟨-, -, hdocs, -⟩ :=
      st.jsonIter.read_ok (none : Option Doc) m n ji' docs n1 hr
    subst hdocs
    injection h with h4
    simp only [Prod.mk.injEq] at h4
    obtain ⟨-, hdst, -⟩ := h4
    rw [← hdst]
    refine ⟨?_, ?_, ?_, ?_, ?_⟩
    · simp [JsonDynamicFlatIterator.flatJson, DstCol.setDeleteState,
        DstCol.isNullable]
    · simp [JsonDynamicFlatIterator.flatJson, DstCol.setDeleteState,
        DstCol.nulls]
    · simp [JsonDynamicFlatIterator.flatJson, DstCol.setDeleteState,
        DstCol.hasNull]
    · intro h0
      simp [JsonDynamicFlatIterator.flatJson, DstCol.setDeleteState,
        DstCol.hasNull, h0]
    · simp [JsonDynamicFlatIterator.flatJson, DstCol.setDeleteState,
        DstCol.deleteStateOf]

theorem C7_witness :
    demoC7dst'.nulls = [false, true] ∧ demoC7dst'.hasNull = true
    ∧ demoC7dst'.deleteStateOf = 0 := by
  have h := C7_dynamic_null_propagation demoDyn demoC7st' .nextN 2 2 [] true
    demoC7json0 0 demoC7dst' rfl
  exact ⟨h.2.1, h.2.2.2.1 rfl, h.2.2.2.2⟩

/-- C1: after every successful batch read of the Precomputed-Flat Reader
(next-N, sparse-range, or fetch-by-rowid) into a fresh well-matched
destination whose sub-iterators are aligned, every flat field holds exactly
the batch's row count, the document sub-column's total row count equals it,
and it equals the number of rows read from the null sub-iterator when one
exists (the condition the source's `DCHECK_EQ(json_column->size(),
target->size())` asserts fatally). -/
theorem C1_row_count_invariant (st st' : JsonFlatColumnIterator)
    (m : ReadMode) (n R nOut : Nat) (dst dst' : DstCol)
    (halign : ∀ it ∈ st.flatIters, it.remaining = R)
    (hnalign : ∀ ni, st.nullIter = some ni → ni.remaining = R)
    (hshape : dst.isNullable = st.nullIter.isSome)
    (hplans : st.castExprs.length = st.flatIters.length)
    (hflen : dst.json.fields.length = st.flatPaths.length)
    (hpaths : st.flatPaths.length = st.flatIters.length)
    (hfresh : ∀ f ∈ dst.json.fields, f.vals = [])
    (hne : st.flatIters ≠ [])
    (h : st.batch_read m n dst = .ok (st', dst', nOut)) :
    (∀ f ∈ dst'.json.fields, f.vals.length = modeCount m n R)
    ∧ dst'.json.size = modeCount m n R
    ∧ (∀ ni, st.nullIter = some ni →
        dst'.nulls.length = dst.nulls.length + modeCount m n R) := by
  obtain ⟨-, -, hlen, hidx, hnull⟩ :=
    JsonFlatColumnIterator.batch_read_ok_inv st m n R dst st' dst' nOut
      halign hnalign hshape h
  have hkeep : (dst.json.init_flat_columns st.flatPaths st.targetTypes).fields
      = dst.json.fields :=
    JsonFlatColumnIterator.init_flat_columns_keep dst.json st.flatPaths
      st.targetTypes hflen
  have hfield : ∀ f ∈ dst'.json.fields, f.vals.length = modeCount m n R := by
    intro f hf
    obtain ⟨i, hi⟩ := List.mem_iff_getElem?.mp hf
    have hilt : i < dst'.json.fields.length := by
      rw [List.getElem?_eq_some_iff] at hi; exact hi.1
    have hiI : i < st.flatIters.length := by rw [← hlen]; exact hilt
    have hit : st.flatIters[i]? = some st.flatIters[i] :=
      List.getElem?_eq_getElem hiI
    have hiP : i < st.castExprs.length := by rw [hplans]; exact hiI
    have hplan : st.castExprs[i]? = some st.castExprs[i] :=
      List.getElem?_eq_getElem hiP
    have hiF : i < dst.json.fields.length := by rw [hflen, hpaths]; exact hiI
    have hf0 : dst.json.fields[i]? = some dst.json.fields[i] :=
      List.getElem?_eq_getElem hiF
    obtain ⟨f', hf', hfa⟩ := hidx i _ _ _ hit hplan (by rw [hkeep]; exact hf0)
    have hfe : f' = f := by
      rw [hf'] at hi
      injection hi
    have hR : st.flatIters[i].remaining = R := halign _ (List.getElem?_mem hit)
    have hlen' := JsonFlatColumnIterator.fieldAfter_ok_length m (min n R) R
      st.flatIters[i] st.castExprs[i] dst.json.fields[i] f' hR hfa
    rw [modeCount_min] at hlen'
    have hz : dst.json.fields[i].vals = [] := hfresh _ (List.getElem?_mem hf0)
    rw [hfe, hz] at hlen'
    simpa using hlen'
  refine ⟨hfield, ?_, ?_⟩
  · cases hfs : dst'.json.fields with
    | nil =>
      exfalso
      rw [hfs] at hlen
      have hz : st.flatIters.length = 0 := by simpa using hlen.symm
      exact hne (List.length_eq_zero.mp hz)
    | cons a l =>
      have ha : a ∈ dst'.json.fields := by
        rw [hfs]; exact List.mem_cons_self a l
      have := hfield a ha
      simp [JsonColumn.size, hfs, this]
  · intro ni hni
    obtain ⟨-, hnulls⟩ := hnull ni hni
    rw [hnulls, List.length_append,
        ni.readVals_length false m n R (hnalign ni hni)]

theorem C1_witness :
    demoC1dst'.json.size = 2 ∧ demoC1dst'.nulls.length = 2 := by
  have h := C1_row_count_invariant demoFlatReader demoC1st' .nextN 2 3 2
    demoDst demoC1dst' (by decide)
    (by intro ni hni; injection hni with e; subst e; rfl)
    rfl rfl rfl rfl (by decide) (by decide) rfl
  exact ⟨h.2.1, h.2.2 demoNullIter rfl⟩

/-- C2: (a) `init` gives every flat field whose target type equals its
source type a null cast-plan entry; (b) during any batch read, a flat
field whose cast-plan entry is null receives, byte for byte, exactly the
values its backing sub-iterator produces when read directly with the same
request (and the sub-iterator's delete state). -/
theorem C2_no_cast_pass_through
    (factory : LogicalType → LogicalType → CastPlan) :
    (∀ (st st' : JsonFlatColumnIterator) (stats stats' : Stats) (i : Nat)
       (t : LogicalType),
       st.init factory stats = (.ok st', stats') →
       st.targetTypes[i]? = some t → st.sourceTypes[i]? = some t →
       st'.castExprs[i]? = some none)
    ∧ (∀ (st st' : JsonFlatColumnIterator) (m : ReadMode) (n R nOut : Nat)
         (dst dst' : DstCol) (i : Nat) (it : SubIter Cell) (f0 : FieldCol),
       (∀ it' ∈ st.flatIters, it'.remaining = R) →
       (∀ ni, st.nullIter = some ni → ni.remaining = R) →
       dst.isNullable = st.nullIter.isSome →
       dst.json.fields.length = st.flatPaths.length →
       st.flatIters[i]? = some it →
       st.castExprs[i]? = some none →
       dst.json.fields[i]? = some f0 →
       st.batch_read m n dst = .ok (st', dst', nOut) →
       dst'.json.fields[i]? = some
         { vals := f0.vals ++ it.readVals (none : Cell) m n,
           deleteState := it.emitDel }) := by
  constructor
  · intro st st' stats stats' i t hinit ht hs
    obtain ⟨hce, -, -, -, -, -⟩ :=
      JsonFlatColumnIterator.init_ok_inv factory st st' stats stats' hinit
    rw [hce]
    exact JsonFlatColumnIterator.buildCastExprs_getElem factory st.targetTypes
      st.sourceTypes i t ht hs
  · intro st st' m n R nOut dst dst' i it f0 halign hnalign hshape hflen hit
      hplan hf0 h
    obtain ⟨-, -, -, hidx, -⟩ :=
      JsonFlatColumnIterator.batch_read_ok_inv st m n R dst st' dst' nOut
        halign hnalign hshape h
    have hkeep := JsonFlatColumnIterator.init_flat_columns_keep dst.json
      st.flatPaths st.targetTypes hflen
    obtain ⟨f', hf', hfa⟩ := hidx i it none f0 hit hplan
      (by rw [hkeep]; exact hf0)
    have hR : it.remaining = R := halign it (List.getElem?_mem hit)
    simp only [JsonFlatColumnIterator.fieldAfter] at hfa
    injection hfa with hfa
    rw [hf', ← hfa, ← it.readVals_min (none : Cell) m n R hR]

theorem C2_witness :
    (demoFlatReader.init demoFactory demoStats).1 = .ok demoFlatInited
    ∧ demoFlatInited.castExprs[0]? = some none
    ∧ demoC1dst'.json.fields[0]?
        = some { vals := [some 1, some 2], deleteState := 0 } := by
  have h := C2_no_cast_pass_through demoFactory
  refine ⟨rfl, ?_, ?_⟩
  · exact h.1 demoFlatReader demoFlatInited demoStats
      { flatJsonHits := bumpHit demoStats.flatJsonHits "$.col",
        dynamicJsonHits := demoStats.dynamicJsonHits }
      0 .intT rfl rfl rfl
  · exact h.2 demoFlatReader demoC1st' .nextN 2 3 2 demoDst demoC1dst' 0
      demoIntIter { vals := [] } (by decide)
      (by intro ni hni; injection hni with e; subst e; rfl)
      rfl rfl rfl rfl rfl rfl

/-- C3: during any batch read of the Precomputed-Flat Reader, a flat field
whose cast evaluator returns a constant (single repeated value) column
receives exactly that one value appended once per row read into the
scratch column — not a materialized buffer with other contents. -/
theorem C3_constant_cast_result (st st' : JsonFlatColumnIterator)
    (m : ReadMode) (n R nOut : Nat) (dst dst' : DstCol) (i : Nat)
    (it : SubIter Cell) (plan : CastPlan) (f0 : FieldCol) (v : Cell)
    (halign : ∀ it' ∈ st.flatIters, it'.remaining = R)
    (hnalign : ∀ ni, st.nullIter = some ni → ni.remaining = R)
    (hshape : dst.isNullable = st.nullIter.isSome)
    (hflen : dst.json.fields.length = st.flatPaths.length)
    (hit : st.flatIters[i]? = some it)
    (hplan : st.castExprs[i]? = some (some plan))
    (hf0 : dst.json.fields[i]? = some f0)
    (heval : plan.eval (it.readVals (none : Cell) m n) = .ok (.isConst v))
    (h : st.batch_read m n dst = .ok (st', dst', nOut)) :
    dst'.json.fields[i]? = some
      { vals := f0.vals
          ++ List.replicate (it.readVals (none : Cell) m n).length v,
        deleteState := it.emitDel } := by
  obtain ⟨-, -, -, hidx, -⟩ :=
    JsonFlatColumnIterator.batch_read_ok_inv st m n R dst st' dst' nOut
      halign hnalign hshape h
  have hkeep := JsonFlatColumnIterator.init_flat_columns_keep dst.json
    st.flatPaths st.targetTypes hflen
  obtain ⟨f', hf', hfa⟩ := hidx i it (some plan) f0 hit hplan
    (by rw [hkeep]; exact hf0)
  have hR : it.remaining = R := halign it (List.getElem?_mem hit)
  simp only [JsonFlatColumnIterator.fieldAfter] at hfa
  rw [← it.readVals_min (none : Cell) m n R hR, heval] at hfa
  injection hfa with hfa
  rw [hf', ← hfa]
  rfl

/-- C4: during any batch read of the Precomputed-Flat Reader, a flat field
whose cast evaluator returns an all-null column receives exactly one null
entry per row read into the scratch column.  The reader's stored scratch
columns (`st.sourceColumns`) are universally quantified and absent from the
conclusion: the scratch is cloned empty each batch, so its prior contents
cannot influence the result. -/
theorem C4_all_null_cast_result (st st' : JsonFlatColumnIterator)
    (m : ReadMode) (n R nOut : Nat) (dst dst' : DstCol) (i : Nat)
    (it : SubIter Cell) (plan : CastPlan) (f0 : FieldCol)
    (halign : ∀ it' ∈ st.flatIters, it'.remaining = R)
    (hnalign : ∀ ni, st.nullIter = some ni → ni.remaining = R)
    (hshape : dst.isNullable = st.nullIter.isSome)
    (hflen : dst.json.fields.length = st.flatPaths.length)
    (hit : st.flatIters[i]? = some it)
    (hplan : st.castExprs[i]? = some (some plan))
    (hf0 : dst.json.fields[i]? = some f0)
    (heval : plan.eval (it.readVals (none : Cell) m n) = .ok .onlyNull)
    (h : st.batch_read m n dst = .ok (st', dst', nOut)) :
    dst'.json.fields[i]? = some
      { vals := f0.vals
          ++ List.replicate (it.readVals (none : Cell) m n).length (none : Cell),
        deleteState := it.emitDel } := by
  obtain ⟨-, -, -, hidx, -⟩ :=
    JsonFlatColumnIterator.batch_read_ok_inv st m n R dst st' dst' nOut
      halign hnalign hshape h
  have hkeep := JsonFlatColumnIterator.init_flat_columns_keep dst.json
    st.flatPaths st.targetTypes hflen
  obtain ⟨f', hf', hfa⟩ := hidx i it (some plan) f0 hit hplan
    (by rw [hkeep]; exact hf0)
  have hR : it.remaining = R := halign it (List.getElem?_mem hit)
  simp only [JsonFlatColumnIterator.fieldAfter] at hfa
  rw [← it.readVals_min (none : Cell) m n R hR, heval] at hfa
  injection hfa with hfa
  rw [hf', ← hfa]
  rfl

theorem C3_witness :
    (DstCol.plain demoC3json' 0).json.fields[0]?
      = some { vals := [some 9, some 9], deleteState := 0 } := by
  have h := C3_constant_cast_result demoCastReader demoC3st' .nextN 2 3 2
    (DstCol.plain demoJsonB 0) (DstCol.plain demoC3json' 0) 0 demoIntIter
    demoConstPlan { vals := [] } (some 9) (by decide)
    (by intro ni hni; exact Option.noConfusion hni) rfl rfl rfl rfl rfl rfl rfl
  exact h

theorem C4_witness :
    (DstCol.plain demoC4json' 0).json.fields[0]?
      = some { vals := [none, none], deleteState := 0 } := by
  have h := C4_all_null_cast_result demoCastReaderNull demoC4st' .nextN 2 3 2
    (DstCol.plain demoC4json0 0) (DstCol.plain demoC4json' 0) 0 demoIntIter
    demoOnlyNullPlan { vals := [] } (by decide)
    (by intro ni hni; exact Option.noConfusion hni) rfl rfl rfl rfl rfl rfl rfl
  exact h

/-- C9 counterexample: the claim says a null-wrapping mismatch is detected
as an internal-consistency fault by every batch-read entry point, but the
next-N entry point accepts a null-wrapped destination when no null
sub-iterator is configured: the read succeeds (`isOk` is `true`), reading
the flat fields and silently leaving the null sub-column untouched. -/
theorem C9_counterexample :
    c9Reader.nullIter = none
    ∧ demoDst.isNullable = true
    ∧ isOk (c9Reader.next_batch_n 2 demoDst) = true := ⟨rfl, rfl, rfl⟩

/-- C9 (amended): a non-null-wrapped destination with a null sub-iterator
configured is a fatal internal-consistency fault in all three entry
points; a null-wrapped destination with no null sub-iterator configured is
detected only by the sparse-range entry point (its `CHECK`) and by
fetch-by-rowid (its checked down-cast) — the next-N entry point does not
detect it (see the counterexample). -/
theorem C9_wrapper_mismatch_checks (st : JsonFlatColumnIterator) (n : Nat)
    (r : SRange) (rs : List Nat) (dst : DstCol) :
    (st.nullIter.isSome = true → dst.isNullable = false →
       st.next_batch_n n dst = .error .internalFault
       ∧ st.next_batch_range r dst = .error .internalFault
       ∧ st.fetch_values_by_rowid rs dst = .error .internalFault)
    ∧ (st.nullIter = none → dst.isNullable = true →
       st.next_batch_range r dst = .error .internalFault
       ∧ st.fetch_values_by_rowid rs dst = .error .internalFault) := by
  constructor
  · intro hsome hplain
    cases hni : st.nullIter with
    | none => rw [hni] at hsome; simp at hsome
    | some ni =>
      cases dst with
      | nullable _ _ _ _ => simp [DstCol.isNullable] at hplain
      | plain j del =>
        exact ⟨by simp [JsonFlatColumnIterator.next_batch_n, hni],
               by simp [JsonFlatColumnIterator.next_batch_range, hni],
               by simp [JsonFlatColumnIterator.fetch_values_by_rowid, hni]⟩
  · intro hnone hnul
    cases dst with
    | plain _ _ => simp [DstCol.isNullable] at hnul
    | nullable nulls hN j del =>
      exact ⟨by simp [JsonFlatColumnIterator.next_batch_range, hnone],
             by simp [JsonFlatColumnIterator.fetch_values_by_rowid, hnone]⟩

theorem C9_witness :
    JsonFlatColumnIterator.next_batch_n demoFlatReader 2 (DstCol.plain demoJson 0)
      = .error .internalFault
    ∧ JsonFlatColumnIterator.next_batch_range c9Reader [(0, 2)] demoDst
      = .error .internalFault := by
  have h1 := (C9_wrapper_mismatch_checks demoFlatReader 2 [(0, 2)] [0]
    (DstCol.plain demoJson 0)).1 rfl rfl
  have h2 := (C9_wrapper_mismatch_checks c9Reader 2 [(0, 2)] [0] demoDst).2
    rfl rfl
  exact ⟨h1.1, h2.1⟩

end StarRocks
